import Mathlib

/-!
A shallow embedding of the to-do list manager (src/src/TodoListManager.js and
the Task class in src/unnamed/part_000) together with proofs about its
behaviour.

Modelling conventions:
* JavaScript strings are modelled as Lean `String`; an argument that may be
  `undefined`/`null`/a non-string value is modelled as `Option String`, with
  `none` standing for "missing or not a string" (the code rejects all such
  values through the same `!x || typeof x !== 'string'` guard).
* `String.prototype.trim()` is modelled by `jsTrim`, which strips the
  JavaScript WhiteSpace/LineTerminator code points from both ends.
* The regular expression `/^\d{4}-\d{2}-\d{2}$/` is modelled by
  `matchesDatePattern` (JavaScript `\d` is exactly the ASCII digits, and
  without the `m` flag `^`/`$` anchor at the very ends of the string).
* A thrown JavaScript error is modelled as the `Except.error` branch carrying
  the message string; every mutating operation returns the manager state it
  leaves behind together with the thrown-or-returned value, so that the state
  after a throwing call is observable.
* The argument of the id-based operations is a JavaScript value: `FindArg.num`
  is a finite number (represented as a rational, which contains every finite
  double), `FindArg.nan` is `NaN` (`typeof` is `'number'` but `===` is always
  false), and `FindArg.nonNumber` is any value whose `typeof` is not
  `'number'`. Stored ids are integers, and `task.id === arg` is numeric
  equality.
-/

deriving instance DecidableEq for Except

namespace Todo

/-- The JavaScript WhiteSpace and LineTerminator code points removed by
`String.prototype.trim`. -/
def isJsWhitespace (c : Char) : Bool :=
  c == ' ' || c == '\t' || c == '\n' || c == '\x0b' || c == '\x0c' || c == '\r' ||
  c == '\u00A0' || c == '\u1680' ||
  (decide ('\u2000' ≤ c) && decide (c ≤ '\u200A')) ||
  c == '\u2028' || c == '\u2029' || c == '\u202F' || c == '\u205F' ||
  c == '\u3000' || c == '\uFEFF'

/-- Strip leading and trailing JavaScript whitespace from a character list. -/
def jsTrimList (l : List Char) : List Char :=
  ((l.dropWhile isJsWhitespace).reverse.dropWhile isJsWhitespace).reverse

/-- Model of `String.prototype.trim()`. -/
def jsTrim (s : String) : String :=
  ⟨jsTrimList s.data⟩

/-- Model of the test `/^\d{4}-\d{2}-\d{2}$/.test s`: four ASCII digits,
a dash, two digits, a dash, two digits, and nothing else. -/
def matchesDatePattern (s : String) : Bool :=
  match s.data with
  | [y1, y2, y3, y4, c1, m1, m2, c2, d1, d2] =>
    y1.isDigit && y2.isDigit && y3.isDigit && y4.isDigit &&
    c1 == '-' && m1.isDigit && m2.isDigit &&
    c2 == '-' && d1.isDigit && d2.isDigit
  | _ => false

/-- Model of `String.prototype.toLowerCase()`: per-code-point simple
lowercasing (`Char.toLower` maps the ASCII uppercase letters; the filter
keywords compared against are all ASCII). -/
def jsToLower (s : String) : String :=
  ⟨s.data.map Char.toLower⟩

/-- One to-do task: the fields stored by the `Task` class. -/
structure Task where
  id : Int
  description : String
  dueDate : String
  completed : Bool
deriving Repr, DecidableEq

/-- The `Task` constructor.  Validates the description (present, a string,
non-empty after trimming) and the due date (present and matching the
pattern); on success stores the description trimmed and the due date
verbatim. -/
def Task.construct (id : Int) (description dueDate : Option String)
    (completed : Bool := false) : Except String Task :=
  match description with
  | none => .error "Task description cannot be empty."
  | some d =>
    if jsTrim d = "" then .error "Task description cannot be empty."
    else
      match dueDate with
      | none => .error "Invalid or missing due date. Expected format YYYY-MM-DD."
      | some dd =>
        if matchesDatePattern dd then
          .ok { id := id, description := jsTrim d, dueDate := dd, completed := completed }
        else .error "Invalid or missing due date. Expected format YYYY-MM-DD."

/-- `Task.prototype.markComplete`. -/
def Task.markComplete (t : Task) : Task :=
  { t with completed := true }

/-- `Task.prototype.markIncomplete`. -/
def Task.markIncomplete (t : Task) : Task :=
  { t with completed := false }

/-- `Task.prototype.updateDescription`: validates, then replaces the
description with the trimmed value (the object is unchanged when the
validation throws). -/
def Task.updateDescription (t : Task) (newDescription : Option String) :
    Except String Task :=
  match newDescription with
  | none => .error "New task description cannot be empty."
  | some d =>
    if jsTrim d = "" then .error "New task description cannot be empty."
    else .ok { t with description := jsTrim d }

/-- `Task.prototype.updateDueDate`: validates the pattern, then replaces the
due date verbatim. -/
def Task.updateDueDate (t : Task) (newDueDate : Option String) :
    Except String Task :=
  match newDueDate with
  | none => .error "Invalid or missing new due date. Expected format YYYY-MM-DD."
  | some dd =>
    if matchesDatePattern dd then .ok { t with dueDate := dd }
    else .error "Invalid or missing new due date. Expected format YYYY-MM-DD."

/-- A JavaScript value passed as a task id: a finite number, `NaN`, or a
value whose `typeof` is not `'number'`. -/
inductive FindArg where
  | num (q : ℚ)
  | nan
  | nonNumber
deriving Repr, DecidableEq

/-- The strict-equality test `task.id === arg` against an integer id. -/
def FindArg.eqId : FindArg → Int → Bool
  | .num q, i => decide (q = (i : ℚ))
  | .nan, _ => false
  | .nonNumber, _ => false

/-- Rendering of the argument inside error messages (the exact numeral
formatting of JavaScript string interpolation is abstracted; no claim
depends on it). -/
def FindArg.display : FindArg → String
  | .num q => toString q
  | .nan => "NaN"
  | .nonNumber => "non-number"

/-- The manager state: the ordered task array and the auto-increment
counter. -/
structure TodoListManager where
  tasks : List Task
  nextId : Int
deriving Repr, DecidableEq

/-- The `TodoListManager` constructor: empty array, counter 1. -/
def TodoListManager.empty : TodoListManager :=
  { tasks := [], nextId := 1 }

/-- Replace the first element satisfying `p` by its image under `f`;
models an in-place mutation of the object returned by `Array.prototype.find`. -/
def modifyFirst (p : Task → Bool) (f : Task → Task) : List Task → List Task
  | [] => []
  | t :: ts => if p t then f t :: ts else t :: modifyFirst p f ts

namespace TodoListManager

/-- `addTask`: constructs a `Task` with the current counter as id; on success
pushes it and increments the counter; on failure re-throws (the `catch`
block only logs) and leaves the state unchanged. -/
def addTask (m : TodoListManager) (description dueDate : Option String) :
    TodoListManager × Except String Task :=
  match Task.construct m.nextId description dueDate with
  | .error e => (m, .error e)
  | .ok t => ({ tasks := m.tasks ++ [t], nextId := m.nextId + 1 }, .ok t)

/-- `_findTaskById`: returns `undefined` (here `none`) for a non-number
argument, otherwise `Array.prototype.find` over the task array. -/
def findTaskById (m : TodoListManager) (arg : FindArg) : Option Task :=
  match arg with
  | .nonNumber => none
  | a => m.tasks.find? (fun t => a.eqId t.id)

/-- `markTaskComplete`: looks up the task, throws when absent, otherwise
mutates the found task's flag in place and returns it. -/
def markTaskComplete (m : TodoListManager) (arg : FindArg) :
    TodoListManager × Except String Task :=
  match findTaskById m arg with
  | none =>
    (m, .error ("Task with ID " ++ arg.display ++ " not found. Cannot mark as complete."))
  | some t =>
    ({ m with tasks := modifyFirst (fun u => arg.eqId u.id) Task.markComplete m.tasks },
     .ok t.markComplete)

/-- `markTaskIncomplete`: symmetric to `markTaskComplete`. -/
def markTaskIncomplete (m : TodoListManager) (arg : FindArg) :
    TodoListManager × Except String Task :=
  match findTaskById m arg with
  | none =>
    (m, .error ("Task with ID " ++ arg.display ++ " not found. Cannot mark as incomplete."))
  | some t =>
    ({ m with tasks := modifyFirst (fun u => arg.eqId u.id) Task.markIncomplete m.tasks },
     .ok t.markIncomplete)

/-- `listTasks`: lowercases the filter, returns a copy of the array for
`all`, a filtered array for `completed`/`pending`, and throws on anything
else with a message naming the (original) invalid value. -/
def listTasks (m : TodoListManager) (filterStatus : String) :
    Except String (List Task) :=
  let f := jsToLower filterStatus
  if f = "all" then .ok m.tasks
  else if f = "completed" then .ok (m.tasks.filter (fun t => t.completed))
  else if f = "pending" then .ok (m.tasks.filter (fun t => !t.completed))
  else
    .error ("Invalid filter status: \"" ++ filterStatus ++
      "\". Use \x27all\x27, \x27completed\x27, or \x27pending\x27.")

/-- `deleteTask`: `findIndex` with `task.id === taskId` (no `typeof` guard),
throws when absent, otherwise `splice`s the element out and returns true. -/
def deleteTask (m : TodoListManager) (arg : FindArg) :
    TodoListManager × Except String Bool :=
  match m.tasks.findIdx? (fun t => arg.eqId t.id) with
  | none =>
    (m, .error ("Task with ID " ++ arg.display ++ " not found. Cannot delete."))
  | some i =>
    ({ m with tasks := m.tasks.eraseIdx i }, .ok true)

end TodoListManager

/-- The `updates` object passed to `updateTask`: the outer `Option` is
`hasOwnProperty`, the inner `Option String` is the property's value
(`none` again standing for a missing or non-string value). -/
structure Updates where
  description : Option (Option String) := none
  dueDate : Option (Option String) := none
deriving Repr, DecidableEq

/-- Apply the two optional field updates to one task, description first.
On failure the error carries the task as already mutated by the stages
that succeeded before the throw. -/
def applyUpdates (u : Updates) (t : Task) : Except (String × Task) Task :=
  let stage1 : Except (String × Task) Task :=
    match u.description with
    | none => .ok t
    | some dv =>
      match t.updateDescription dv with
      | .error e => .error (e, t)
      | .ok t1 => .ok t1
  match stage1 with
  | .error r => .error r
  | .ok t1 =>
    match u.dueDate with
    | none => .ok t1
    | some dd =>
      match t1.updateDueDate dd with
      | .error e => .error (e, t1)
      | .ok t2 => .ok t2

namespace TodoListManager

/-- `updateTask`: looks up the task, throws when absent; otherwise applies
`updateDescription` then `updateDueDate` for the fields present in
`updates`, mutating the found task in place; a validation throw from the
second stage leaves the first stage's mutation applied. -/
def updateTask (m : TodoListManager) (arg : FindArg) (u : Updates) :
    TodoListManager × Except String Task :=
  match findTaskById m arg with
  | none =>
    (m, .error ("Task with ID " ++ arg.display ++ " not found. Cannot update."))
  | some t =>
    match applyUpdates u t with
    | .ok t2 =>
      ({ m with tasks := modifyFirst (fun w => arg.eqId w.id) (fun _ => t2) m.tasks },
       .ok t2)
    | .error (e, t1) =>
      ({ m with tasks := modifyFirst (fun w => arg.eqId w.id) (fun _ => t1) m.tasks },
       .error e)

end TodoListManager

/-- One caller-visible operation on the manager. -/
inductive Op where
  | add (description dueDate : Option String)
  | complete (arg : FindArg)
  | incomplete (arg : FindArg)
  | del (arg : FindArg)
  | update (arg : FindArg) (u : Updates)
  | list (filterStatus : String)
  | find (arg : FindArg)
deriving Repr

/-- The manager state left behind by one operation (whether it returned or
threw). -/
def stepOp (m : TodoListManager) : Op → TodoListManager
  | .add d dd => (m.addTask d dd).1
  | .complete a => (m.markTaskComplete a).1
  | .incomplete a => (m.markTaskIncomplete a).1
  | .del a => (m.deleteTask a).1
  | .update a u => (m.updateTask a u).1
  | .list _ => m
  | .find _ => m

/-- Run a sequence of operations from a state. -/
def runOps (ops : List Op) (m : TodoListManager) : TodoListManager :=
  ops.foldl stepOp m

/-- The date shape in the words of the specification: four digits, a dash,
two digits, a dash, two digits, a digit being a character between `0` and
`9`.  Stated independently of `matchesDatePattern` so the two can be
compared. -/
def specDateShape (s : String) : Prop :=
  ∃ y1 y2 y3 y4 mo1 mo2 d1 d2 : Char,
    s.data = [y1, y2, y3, y4, '-', mo1, mo2, '-', d1, d2] ∧
    ∀ c ∈ [y1, y2, y3, y4, mo1, mo2, d1, d2], '0' ≤ c ∧ c ≤ '9'

/-- The ids currently stored by a manager, in sequence order. -/
def idsOf (m : TodoListManager) : List Int :=
  m.tasks.map Task.id

/-- Well-formedness of one task: the description is non-empty and equal to
its own trim, and the due date matches the date pattern. -/
def TaskInv (t : Task) : Prop :=
  t.description ≠ "" ∧ jsTrim t.description = t.description ∧
  matchesDatePattern t.dueDate = true

/-- The manager invariant: stored ids are pairwise distinct, every stored
id is strictly below the next-id counter, and every stored task is
well-formed. -/
def Inv (m : TodoListManager) : Prop :=
  (idsOf m).Nodup ∧ (∀ i ∈ idsOf m, i < m.nextId) ∧ ∀ t ∈ m.tasks, TaskInv t

end Todo

namespace Todo

/-! ### Helper lemmas about `dropWhile` and `jsTrim` -/

theorem head?_dropWhile_false {α : Type _} (p : α → Bool) (l : List α) :
    ∀ x, (l.dropWhile p).head? = some x → p x = false := by
  induction l with
  | nil => intro x h; simp at h
  | cons a as ih =>
    intro x h
    rw [List.dropWhile_cons] at h
    by_cases ha : p a
    · exact ih x (by simpa [ha] using h)
    · rw [if_neg ha] at h
      simp only [List.head?_cons, Option.some.injEq] at h
      rw [← h]
      simpa using ha

theorem dropWhile_eq_self_of_head? {α : Type _} (p : α → Bool) (l : List α)
    (h : ∀ x, l.head? = some x → p x = false) : l.dropWhile p = l := by
  cases l with
  | nil => rfl
  | cons a as =>
    have := h a rfl
    simp [List.dropWhile_cons, this]

theorem dropWhile_dropWhile {α : Type _} (p : α → Bool) (l : List α) :
    (l.dropWhile p).dropWhile p = l.dropWhile p := by
  apply dropWhile_eq_self_of_head?
  exact head?_dropWhile_false p l

theorem getLast?_cons_ne_nil {α : Type _} (a : α) {as : List α} (h : as ≠ []) :
    (a :: as).getLast? = as.getLast? := by
  cases as with
  | nil => exact absurd rfl h
  | cons b bs => simp [List.getLast?]

theorem getLast?_dropWhile_ne_nil {α : Type _} (p : α → Bool) (l : List α)
    (h : l.dropWhile p ≠ []) : (l.dropWhile p).getLast? = l.getLast? := by
  induction l with
  | nil => simp at h
  | cons a as ih =>
    by_cases ha : p a
    · rw [List.dropWhile_cons] at h ⊢
      simp only [ha, if_pos] at h ⊢
      have has : as ≠ [] := by
        intro b; rw [b] at h; simp at h
      rw [ih h, getLast?_cons_ne_nil a has]
    · simp [List.dropWhile_cons, ha]

theorem jsTrimList_idem (l : List Char) :
    jsTrimList (jsTrimList l) = jsTrimList l := by
  unfold jsTrimList
  set p := isJsWhitespace with hp
  set m := l.dropWhile p with hm
  set k := m.reverse.dropWhile p with hk
  by_cases hknil : k = []
  · simp [hknil]
  · have h1 : k.reverse.dropWhile p = k.reverse := by
      apply dropWhile_eq_self_of_head?
      intro x hx
      rw [List.head?_reverse] at hx
      have hgl : k.getLast? = m.reverse.getLast? := by
        rw [hk]; exact getLast?_dropWhile_ne_nil p m.reverse (hk ▸ hknil)
      rw [hgl, List.getLast?_reverse] at hx
      exact head?_dropWhile_false p l x (hm ▸ hx)
    rw [h1, List.reverse_reverse]
    rw [hk, dropWhile_dropWhile]

theorem jsTrim_idem (s : String) : jsTrim (jsTrim s) = jsTrim s := by
  unfold jsTrim
  exact congrArg String.mk (jsTrimList_idem s.data)

/-! ### Helper lemmas about `modifyFirst` -/

theorem modifyFirst_append (p : Task → Bool) (f : Task → Task)
    (pre : List Task) (t : Task) (post : List Task)
    (hpre : ∀ u ∈ pre, p u = false) (hp : p t = true) :
    modifyFirst p f (pre ++ t :: post) = pre ++ f t :: post := by
  induction pre with
  | nil => simp [modifyFirst, hp]
  | cons a as ih =>
    have ha : p a = false := hpre a (by simp)
    have ih' := ih fun u hu => hpre u (by simp [hu])
    simp [List.cons_append, modifyFirst, ha, ih']

theorem length_modifyFirst (p : Task → Bool) (f : Task → Task) (l : List Task) :
    (modifyFirst p f l).length = l.length := by
  induction l with
  | nil => rfl
  | cons a as ih =>
    by_cases h : p a <;> simp [modifyFirst, h, ih]

/-- The first-match decomposition behind `Array.prototype.find`. -/
theorem find?_decomp {p : Task → Bool} {l : List Task} {t : Task}
    (h : l.find? p = some t) :
    p t = true ∧ ∃ pre post, l = pre ++ t :: post ∧ ∀ u ∈ pre, p u = false := by
  rcases List.find?_eq_some.mp h with ⟨hpt, pre, post, rfl, hpre⟩
  exact ⟨hpt, pre, post, rfl, fun u hu => by simpa using hpre u hu⟩

end Todo

namespace Todo

/-! ### C2 / C3: `addTask` success and failure -/

/-- C2: for every valid pair (description trims non-empty, due date matching
the pattern), `addTask` returns a `Task` with the trimmed description, the
pre-call counter value as id, `completed = false`, appends it at the end of
the sequence, grows the sequence length by exactly 1 and the counter by
exactly 1. -/
theorem addTask_success_spec (m : TodoListManager) (d dd : String)
    (hd : jsTrim d ≠ "") (hdd : matchesDatePattern dd = true) :
    ∃ t : Task,
      m.addTask (some d) (some dd) =
        ({ tasks := m.tasks ++ [t], nextId := m.nextId + 1 }, .ok t) ∧
      t.id = m.nextId ∧ t.description = jsTrim d ∧ t.dueDate = dd ∧
      t.completed = false ∧
      (m.addTask (some d) (some dd)).1.tasks.length = m.tasks.length + 1 ∧
      (m.addTask (some d) (some dd)).1.nextId = m.nextId + 1 := by
  refine ⟨⟨m.nextId, jsTrim d, dd, false⟩, ?_, rfl, rfl, rfl, rfl, ?_, ?_⟩ <;>
    simp [TodoListManager.addTask, Task.construct, hd, hdd]

/-- Witness for `addTask_success_spec` at a concrete valid input. -/
theorem addTask_success_spec_witness :
    jsTrim "  Buy milk " ≠ "" ∧ matchesDatePattern "2024-08-15" = true ∧
    ∃ t : Task,
      TodoListManager.empty.addTask (some "  Buy milk ") (some "2024-08-15") =
        ({ tasks := TodoListManager.empty.tasks ++ [t],
           nextId := TodoListManager.empty.nextId + 1 }, .ok t) ∧
      t.id = TodoListManager.empty.nextId ∧
      t.description = jsTrim "  Buy milk " ∧ t.dueDate = "2024-08-15" ∧
      t.completed = false ∧
      (TodoListManager.empty.addTask (some "  Buy milk ") (some "2024-08-15")).1.tasks.length =
        TodoListManager.empty.tasks.length + 1 ∧
      (TodoListManager.empty.addTask (some "  Buy milk ") (some "2024-08-15")).1.nextId =
        TodoListManager.empty.nextId + 1 :=
  ⟨by decide, by decide,
    addTask_success_spec TodoListManager.empty "  Buy milk " "2024-08-15"
      (by decide) (by decide)⟩

/-- C3: `addTask` throws exactly when the description is missing, not a
string, or trims to empty (`none` models "missing or not a string"), or the
due date is missing or does not match the pattern; whenever it throws, the
manager state (tasks and counter) is unchanged. -/
theorem addTask_error_spec (m : TodoListManager) (d dd : Option String) :
    ((∃ e, (m.addTask d dd).2 = .error e) ↔
      ((∀ s, d = some s → jsTrim s = "") ∨
       (∀ s, dd = some s → matchesDatePattern s = false))) ∧
    (∀ e, (m.addTask d dd).2 = .error e → (m.addTask d dd).1 = m) := by
  cases d with
  | none => simp [TodoListManager.addTask, Task.construct]
  | some s =>
    by_cases hs : jsTrim s = ""
    · simp [TodoListManager.addTask, Task.construct, hs]
    · cases dd with
      | none => simp [TodoListManager.addTask, Task.construct, hs]
      | some s2 =>
        by_cases h2 : matchesDatePattern s2
        · simp [TodoListManager.addTask, Task.construct, hs, h2]
        · simp [TodoListManager.addTask, Task.construct, hs,
            Bool.eq_false_iff.mpr h2]

/-- Witness for `addTask_error_spec` at a concrete invalid input. -/
theorem addTask_error_spec_witness :
    (∃ e, (TodoListManager.empty.addTask (some " ") (some "2024-01-01")).2 = .error e) ∧
    (TodoListManager.empty.addTask (some " ") (some "2024-01-01")).1 =
      TodoListManager.empty :=
  ⟨(addTask_error_spec TodoListManager.empty (some " ") (some "2024-01-01")).1.mpr
      (Or.inl (fun s hs => by cases hs; decide)),
   (addTask_error_spec TodoListManager.empty (some " ") (some "2024-01-01")).2
      "Task description cannot be empty." (by decide)⟩

end Todo

namespace Todo

/-! ### C1: state on error -/

theorem findTaskById_eq_find? (m : TodoListManager) (a : FindArg) (t : Task)
    (h : m.findTaskById a = some t) :
    m.tasks.find? (fun w => a.eqId w.id) = some t := by
  cases a with
  | num q => simpa [TodoListManager.findTaskById] using h
  | nan => simpa [TodoListManager.findTaskById] using h
  | nonNumber => simp [TodoListManager.findTaskById] at h

/-- C1 as stated is refuted by the code: `updateTask` with a valid
description together with an invalid due date throws, yet the manager state
after the call differs from the state before it (the description update has
already been applied). -/
theorem updateTask_partial_mutation_cex :
    (∃ e, ((TodoListManager.empty.addTask (some "a") (some "2024-01-01")).1.updateTask
        (.num 1) { description := some (some "b"), dueDate := some (some "bad") }).2 =
        .error e) ∧
    ((TodoListManager.empty.addTask (some "a") (some "2024-01-01")).1.updateTask
        (.num 1) { description := some (some "b"), dueDate := some (some "bad") }).1 ≠
      (TodoListManager.empty.addTask (some "a") (some "2024-01-01")).1 :=
  ⟨⟨"Invalid or missing new due date. Expected format YYYY-MM-DD.", by decide⟩, by decide⟩

/-- C1 (amended): `addTask`, `markTaskComplete`, `markTaskIncomplete` and
`deleteTask` leave the state exactly as before the call whenever they throw;
`updateTask` does too, except that when the updates carry a description that
passes validation together with a due-date update that fails, the found
task's description has already been replaced by the trimmed new value when
the error is raised (everything else is unchanged). -/
theorem mutating_error_frame :
    (∀ (m : TodoListManager) (d dd : Option String) (e : String),
      (m.addTask d dd).2 = .error e → (m.addTask d dd).1 = m) ∧
    (∀ (m : TodoListManager) (a : FindArg) (e : String),
      (m.markTaskComplete a).2 = .error e → (m.markTaskComplete a).1 = m) ∧
    (∀ (m : TodoListManager) (a : FindArg) (e : String),
      (m.markTaskIncomplete a).2 = .error e → (m.markTaskIncomplete a).1 = m) ∧
    (∀ (m : TodoListManager) (a : FindArg) (e : String),
      (m.deleteTask a).2 = .error e → (m.deleteTask a).1 = m) ∧
    (∀ (m : TodoListManager) (a : FindArg) (u : Updates) (e : String),
      (m.updateTask a u).2 = .error e →
      ((m.updateTask a u).1 = m ∨
       ∃ pre t post s dv,
         m.tasks = pre ++ t :: post ∧
         a.eqId t.id = true ∧ (∀ w ∈ pre, a.eqId w.id = false) ∧
         u.description = some (some s) ∧ jsTrim s ≠ "" ∧
         u.dueDate = some dv ∧
         Task.updateDueDate { t with description := jsTrim s } dv = .error e ∧
         (m.updateTask a u).1 =
           { m with tasks := pre ++ { t with description := jsTrim s } :: post })) := by
  refine ⟨?_, ?_, ?_, ?_, ?_⟩
  · intro m d dd e h
    rcases hc : Task.construct m.nextId d dd with e2 | t
    · simp [TodoListManager.addTask, hc]
    · simp [TodoListManager.addTask, hc] at h
  · intro m a e h
    rcases hf : m.findTaskById a with _ | t
    · simp [TodoListManager.markTaskComplete, hf]
    · simp [TodoListManager.markTaskComplete, hf] at h
  · intro m a e h
    rcases hf : m.findTaskById a with _ | t
    · simp [TodoListManager.markTaskIncomplete, hf]
    · simp [TodoListManager.markTaskIncomplete, hf] at h
  · intro m a e h
    rcases hi : m.tasks.findIdx? (fun t => a.eqId t.id) with _ | i
    · simp [TodoListManager.deleteTask, hi]
    · simp [TodoListManager.deleteTask, hi] at h
  · intro m a u e h
    rcases hf : m.findTaskById a with _ | t
    · left; simp [TodoListManager.updateTask, hf]
    · have hfind := findTaskById_eq_find? m a t hf
      obtain ⟨hpt, pre, post, hsplit, hpre⟩ := find?_decomp hfind
      rcases happ : applyUpdates u t with ⟨e1, t1⟩ | t2
      swap
      · simp [TodoListManager.updateTask, hf, happ] at h
      · have hstate : (m.updateTask a u).1 =
            { m with tasks := modifyFirst (fun w => a.eqId w.id) (fun _ => t1) m.tasks } := by
          simp [TodoListManager.updateTask, hf, happ]
        have he : e1 = e := by
          have := h
          simp [TodoListManager.updateTask, hf, happ] at this
          exact this
        have hmod : modifyFirst (fun w => a.eqId w.id) (fun _ => t1) m.tasks =
            pre ++ t1 :: post := by
          rw [hsplit]
          exact modifyFirst_append _ _ pre t post hpre hpt
        -- analyse the two stages of applyUpdates
        unfold applyUpdates at happ
        rcases hud : u.description with _ | dv
        · rw [hud] at happ
          simp only at happ
          rcases hudd : u.dueDate with _ | dv2
          · rw [hudd] at happ; simp at happ
          · rw [hudd] at happ
            simp only at happ
            rcases hupd : t.updateDueDate dv2 with e2 | t2
            · rw [hupd] at happ
              simp only [Except.error.injEq, Prod.mk.injEq] at happ
              left
              rw [hstate, hmod, ← happ.2, ← hsplit]
            · rw [hupd] at happ; simp at happ
        · rw [hud] at happ
          simp only at happ
          rcases hup : t.updateDescription dv with e2 | t1'
          · rw [hup] at happ
            simp only [Except.error.injEq, Prod.mk.injEq] at happ
            left
            have ht1 : t1 = t := happ.2.symm
            rw [hstate, hmod, ht1, ← hsplit]
          · rw [hup] at happ
            simp only at happ
            -- the description stage succeeded: extract the string
            rcases dv with _ | s
            · simp [Task.updateDescription] at hup
            · by_cases hs : jsTrim s = ""
              · simp [Task.updateDescription, hs] at hup
              · have ht1' : t1' = { t with description := jsTrim s } := by
                  simp [Task.updateDescription, hs] at hup
                  exact hup.symm
                rcases hudd : u.dueDate with _ | dv2
                · rw [hudd] at happ; simp at happ
                · rw [hudd] at happ
                  simp only at happ
                  rcases hupd : t1'.updateDueDate dv2 with e2 | t2
                  · rw [hupd] at happ
                    simp only [Except.error.injEq, Prod.mk.injEq] at happ
                    right
                    refine ⟨pre, t, post, s, dv2, hsplit, hpt, hpre, rfl, hs, rfl, ?_, ?_⟩
                    · rw [← ht1', hupd, happ.1, he]
                    · rw [hstate, hmod, ← happ.2, ht1']
                  · rw [hupd] at happ; simp at happ

/-- Witness for `mutating_error_frame` at a concrete throwing call. -/
theorem mutating_error_frame_witness :
    (TodoListManager.empty.addTask none none).2 = .error "Task description cannot be empty." ∧
    (TodoListManager.empty.addTask none none).1 = TodoListManager.empty :=
  ⟨by decide,
   mutating_error_frame.1 TodoListManager.empty none none
     "Task description cannot be empty." (by decide)⟩

end Todo

namespace Todo

/-! ### C4 / C5: `listTasks` -/

theorem countP_add_countP_not (p : Task → Bool) (l : List Task) :
    l.countP p + l.countP (fun x => !p x) = l.length := by
  induction l with
  | nil => rfl
  | cons a as ih =>
    by_cases h : p a <;>
      simp [List.countP_cons, h, ← ih] <;> omega

/-- C4: `listTasks "completed"` and `listTasks "pending"` partition the
collection: both are order-preserving sub-sequences of `listTasks "all"`,
every listed task lies in exactly one of the two, and multiplicities and
lengths add up, so their order-preserving merge is exactly `listTasks "all"`. -/
theorem listTasks_partition (m : TodoListManager) :
    ∃ A C P : List Task,
      m.listTasks "all" = .ok A ∧ m.listTasks "completed" = .ok C ∧
      m.listTasks "pending" = .ok P ∧
      C.Sublist A ∧ P.Sublist A ∧
      (∀ t ∈ A, (t ∈ C ∧ t ∉ P) ∨ (t ∈ P ∧ t ∉ C)) ∧
      (∀ t : Task, A.count t = C.count t + P.count t) ∧
      C.length + P.length = A.length := by
  refine ⟨m.tasks, m.tasks.filter (fun t => t.completed),
    m.tasks.filter (fun t => !t.completed), rfl, rfl, rfl,
    List.filter_sublist _, List.filter_sublist _, ?_, ?_, ?_⟩
  · intro t ht
    by_cases hc : t.completed
    · exact Or.inl ⟨List.mem_filter.mpr ⟨ht, hc⟩,
        fun hmem => by simpa [hc] using (List.mem_filter.mp hmem).2⟩
    · exact Or.inr ⟨List.mem_filter.mpr ⟨ht, by simpa using hc⟩,
        fun hmem => hc (by simpa using (List.mem_filter.mp hmem).2)⟩
  · intro t
    by_cases hc : t.completed
    · have h1 : (m.tasks.filter (fun t => t.completed)).count t = m.tasks.count t :=
        List.count_filter hc
      have h2 : (m.tasks.filter (fun t => !t.completed)).count t = 0 := by
        rw [List.count_eq_zero]
        intro hmem
        simpa [hc] using (List.mem_filter.mp hmem).2
      omega
    · have h1 : (m.tasks.filter (fun t => !t.completed)).count t = m.tasks.count t :=
        List.count_filter (by simpa using hc)
      have h2 : (m.tasks.filter (fun t => t.completed)).count t = 0 := by
        rw [List.count_eq_zero]
        intro hmem
        exact hc (by simpa using (List.mem_filter.mp hmem).2)
      omega
  · rw [← List.countP_eq_length_filter, ← List.countP_eq_length_filter]
    exact countP_add_countP_not _ _

/-- C5: `listTasks` is case-insensitive in its filter: any value lowercasing
to `all`, `completed` or `pending` yields the corresponding listing; any
other value throws an error whose message names the invalid value (the
original, unlowercased string), and the manager state is never changed by a
`listTasks` call. -/
theorem listTasks_filter_spec (m : TodoListManager) (f : String) :
    (jsToLower f = "all" → m.listTasks f = .ok m.tasks) ∧
    (jsToLower f = "completed" →
      m.listTasks f = .ok (m.tasks.filter (fun t => t.completed))) ∧
    (jsToLower f = "pending" →
      m.listTasks f = .ok (m.tasks.filter (fun t => !t.completed))) ∧
    (jsToLower f ≠ "all" → jsToLower f ≠ "completed" → jsToLower f ≠ "pending" →
      ∃ pre suf, m.listTasks f = .error (pre ++ f ++ suf)) ∧
    (∀ ops : List Op, runOps (Op.list f :: ops) m = runOps ops m) := by
  refine ⟨?_, ?_, ?_, ?_, fun ops => rfl⟩
  · intro h; simp [TodoListManager.listTasks, h]
  · intro h; simp [TodoListManager.listTasks, h]
  · intro h; simp [TodoListManager.listTasks, h]
  · intro h1 h2 h3
    exact ⟨"Invalid filter status: \"",
      "\". Use \x27all\x27, \x27completed\x27, or \x27pending\x27.",
      by simp [TodoListManager.listTasks, h1, h2, h3]⟩

/-- Witness for `listTasks_filter_spec`: an uppercase filter is accepted,
an unknown filter is rejected with a message naming it. -/
theorem listTasks_filter_spec_witness :
    TodoListManager.empty.listTasks "ALL" = .ok TodoListManager.empty.tasks ∧
    (∃ pre suf,
      TodoListManager.empty.listTasks "urgent" = .error (pre ++ "urgent" ++ suf)) :=
  ⟨(listTasks_filter_spec TodoListManager.empty "ALL").1 (by decide),
   (listTasks_filter_spec TodoListManager.empty "urgent").2.2.2.1
     (by decide) (by decide) (by decide)⟩

end Todo

namespace Todo

/-! ### C6: due-date validation is purely syntactic -/

theorem isDigit_iff (c : Char) : c.isDigit = true ↔ ('0' ≤ c ∧ c ≤ '9') := by
  have h0 : ('0' : Char).val = 48 := rfl
  have h9 : ('9' : Char).val = 57 := rfl
  simp only [Char.isDigit, Bool.and_eq_true, decide_eq_true_iff, ge_iff_le,
    Char.le_def, h0, h9]

theorem matchesDatePattern_iff (s : String) :
    matchesDatePattern s = true ↔ specDateShape s := by
  constructor
  · intro h
    unfold matchesDatePattern at h
    split at h
    case _ y1 y2 y3 y4 c1 mo1 mo2 c2 d1 d2 heq =>
      simp only [Bool.and_eq_true, beq_iff_eq] at h
      obtain ⟨⟨⟨⟨⟨⟨⟨⟨⟨h1, h2⟩, h3⟩, h4⟩, hc1⟩, h5⟩, h6⟩, hc2⟩, h7⟩, h8⟩ := h
      subst hc1; subst hc2
      refine ⟨y1, y2, y3, y4, mo1, mo2, d1, d2, heq, ?_⟩
      intro c hc
      simp only [List.mem_cons, List.not_mem_nil, or_false] at hc
      rcases hc with rfl | rfl | rfl | rfl | rfl | rfl | rfl | rfl <;>
        [exact (isDigit_iff _).mp h1; exact (isDigit_iff _).mp h2;
         exact (isDigit_iff _).mp h3; exact (isDigit_iff _).mp h4;
         exact (isDigit_iff _).mp h5; exact (isDigit_iff _).mp h6;
         exact (isDigit_iff _).mp h7; exact (isDigit_iff _).mp h8]
    case _ => exact absurd h (by simp)
  · rintro ⟨y1, y2, y3, y4, mo1, mo2, d1, d2, hdata, hdig⟩
    unfold matchesDatePattern
    rw [hdata]
    simp only [Bool.and_eq_true, beq_iff_eq]
    refine ⟨⟨⟨⟨⟨⟨⟨⟨⟨?_, ?_⟩, ?_⟩, ?_⟩, trivial⟩, ?_⟩, ?_⟩, trivial⟩, ?_⟩, ?_⟩ <;>
      rw [isDigit_iff] <;> exact hdig _ (by simp)

/-- C6: due-date validation in construction, `updateDueDate` and
`updateTask` is purely syntactic: every string of the shape
digits-dash-digits-dash-digits is accepted (calendar validity is not
checked) and stored verbatim, every other string is rejected with a
validation error. -/
theorem dueDate_syntactic_spec (s : String) :
    (matchesDatePattern s = true ↔ specDateShape s) ∧
    (∀ (id : Int) (d : String) (c : Bool), jsTrim d ≠ "" → specDateShape s →
      ∃ t, Task.construct id (some d) (some s) c = .ok t ∧ t.dueDate = s) ∧
    (∀ (id : Int) (d : String) (c : Bool), jsTrim d ≠ "" → ¬specDateShape s →
      Task.construct id (some d) (some s) c =
        .error "Invalid or missing due date. Expected format YYYY-MM-DD.") ∧
    (∀ t : Task, specDateShape s →
      t.updateDueDate (some s) = .ok { t with dueDate := s }) ∧
    (∀ t : Task, ¬specDateShape s →
      t.updateDueDate (some s) =
        .error "Invalid or missing new due date. Expected format YYYY-MM-DD.") ∧
    (∀ (m : TodoListManager) (a : FindArg) (t : Task), m.findTaskById a = some t →
      specDateShape s →
      (m.updateTask a { dueDate := some (some s) }).2 = .ok { t with dueDate := s }) ∧
    (∀ (m : TodoListManager) (a : FindArg) (t : Task), m.findTaskById a = some t →
      ¬specDateShape s →
      (m.updateTask a { dueDate := some (some s) }).2 =
        .error "Invalid or missing new due date. Expected format YYYY-MM-DD.") := by
  refine ⟨matchesDatePattern_iff s, ?_, ?_, ?_, ?_, ?_, ?_⟩
  · intro id d c hd hs
    have hm : matchesDatePattern s = true := (matchesDatePattern_iff s).mpr hs
    exact ⟨{ id := id, description := jsTrim d, dueDate := s, completed := c },
      by simp [Task.construct, hd, hm], rfl⟩
  · intro id d c hd hs
    have hm : matchesDatePattern s = false :=
      Bool.eq_false_iff.mpr (fun h => hs ((matchesDatePattern_iff s).mp h))
    simp [Task.construct, hd, hm]
  · intro t hs
    have hm : matchesDatePattern s = true := (matchesDatePattern_iff s).mpr hs
    simp [Task.updateDueDate, hm]
  · intro t hs
    have hm : matchesDatePattern s = false :=
      Bool.eq_false_iff.mpr (fun h => hs ((matchesDatePattern_iff s).mp h))
    simp [Task.updateDueDate, hm]
  · intro m a t hf hs
    have hm : matchesDatePattern s = true := (matchesDatePattern_iff s).mpr hs
    simp [TodoListManager.updateTask, hf, applyUpdates, Task.updateDueDate, hm]
  · intro m a t hf hs
    have hm : matchesDatePattern s = false :=
      Bool.eq_false_iff.mpr (fun h => hs ((matchesDatePattern_iff s).mp h))
    simp [TodoListManager.updateTask, hf, applyUpdates, Task.updateDueDate, hm]

/-- Witness for `dueDate_syntactic_spec`: the calendar-invalid string
`2024-13-32` is accepted and stored verbatim; `2024-1-1` is rejected. -/
theorem dueDate_syntactic_spec_witness :
    (∃ t, Task.construct 7 (some "x") (some "2024-13-32") false = .ok t ∧
      t.dueDate = "2024-13-32") ∧
    Task.construct 7 (some "x") (some "2024-1-1") false =
      .error "Invalid or missing due date. Expected format YYYY-MM-DD." :=
  ⟨(dueDate_syntactic_spec "2024-13-32").2.1 7 "x" false (by decide)
      ⟨'2', '0', '2', '4', '1', '3', '3', '2', by decide, by decide⟩,
   (dueDate_syntactic_spec "2024-1-1").2.2.1 7 "x" false (by decide)
      (fun hs => absurd ((dueDate_syntactic_spec "2024-1-1").1.mpr hs) (by decide))⟩

end Todo

namespace Todo

/-! ### C7: `_findTaskById` never throws -/

/-- C7: `findTaskById` is total (it returns an `Option`, never a thrown
error); every argument that is not an integer yields not-found, and an
integer argument yields the first task in sequence order whose id equals
it, or not-found when no stored task has that id. -/
theorem findTaskById_spec (m : TodoListManager) (arg : FindArg) :
    ((∀ n : Int, arg ≠ FindArg.num (n : ℚ)) → m.findTaskById arg = none) ∧
    (∀ n : Int,
      (m.findTaskById (FindArg.num (n : ℚ)) = none ↔ ∀ t ∈ m.tasks, t.id ≠ n)) ∧
    (∀ (n : Int) (t : Task), m.findTaskById (FindArg.num (n : ℚ)) = some t →
      t.id = n ∧ ∃ pre post, m.tasks = pre ++ t :: post ∧ ∀ u ∈ pre, u.id ≠ n) := by
  refine ⟨?_, ?_, ?_⟩
  · intro h
    cases arg with
    | num q =>
      simp only [TodoListManager.findTaskById]
      rw [List.find?_eq_none]
      intro t _
      simp only [FindArg.eqId, decide_eq_true_iff]
      intro hq
      exact h t.id (by rw [hq])
    | nan =>
      simp only [TodoListManager.findTaskById]
      rw [List.find?_eq_none]
      intro t _
      simp [FindArg.eqId]
    | nonNumber => rfl
  · intro n
    simp only [TodoListManager.findTaskById]
    rw [List.find?_eq_none]
    constructor
    · intro h t ht hid
      have := h t ht
      simp [FindArg.eqId, hid] at this
    · intro h t ht
      simp only [FindArg.eqId, decide_eq_true_iff]
      intro hq
      exact h t ht (by exact_mod_cast hq.symm)
  · intro n t h
    have hfind : m.tasks.find? (fun w => (FindArg.num (n : ℚ)).eqId w.id) = some t :=
      findTaskById_eq_find? m _ t h
    obtain ⟨hpt, pre, post, hsplit, hpre⟩ := find?_decomp hfind
    have hid : t.id = n := by
      simp only [FindArg.eqId, decide_eq_true_iff] at hpt
      exact_mod_cast hpt.symm
    refine ⟨hid, pre, post, hsplit, ?_⟩
    intro u hu hun
    have := hpre u hu
    simp [FindArg.eqId, hun] at this

/-- Witness for `findTaskById_spec`: a non-number argument yields
not-found, and an integer argument finds the task with that id. -/
theorem findTaskById_spec_witness :
    TodoListManager.empty.findTaskById .nonNumber = none ∧
    ((TodoListManager.empty.addTask (some "a") (some "2024-01-01")).1.findTaskById
        (FindArg.num ((1 : Int) : ℚ)) = none ↔
      ∀ t ∈ (TodoListManager.empty.addTask (some "a") (some "2024-01-01")).1.tasks,
        t.id ≠ 1) :=
  ⟨(findTaskById_spec TodoListManager.empty .nonNumber).1
      (fun n h => by cases h),
   (findTaskById_spec
      (TodoListManager.empty.addTask (some "a") (some "2024-01-01")).1 .nan).2.1 1⟩

end Todo

namespace Todo

/-! ### C10: frame property of the mark operations -/

/-- C10: when `markTaskComplete`/`markTaskIncomplete` succeeds, the only
change is the completion flag of the first task matching the argument: its
other fields, all other tasks, the sequence length and order, and the
counter are unchanged, and the mutated task is returned. -/
theorem mark_frame_spec (m : TodoListManager) (arg : FindArg) (r : Task) :
    ((m.markTaskComplete arg).2 = .ok r →
      (m.markTaskComplete arg).1.nextId = m.nextId ∧
      (m.markTaskComplete arg).1.tasks.length = m.tasks.length ∧
      ∃ pre t post, m.tasks = pre ++ t :: post ∧
        arg.eqId t.id = true ∧ (∀ u ∈ pre, arg.eqId u.id = false) ∧
        r = { t with completed := true } ∧
        (m.markTaskComplete arg).1.tasks = pre ++ { t with completed := true } :: post) ∧
    ((m.markTaskIncomplete arg).2 = .ok r →
      (m.markTaskIncomplete arg).1.nextId = m.nextId ∧
      (m.markTaskIncomplete arg).1.tasks.length = m.tasks.length ∧
      ∃ pre t post, m.tasks = pre ++ t :: post ∧
        arg.eqId t.id = true ∧ (∀ u ∈ pre, arg.eqId u.id = false) ∧
        r = { t with completed := false } ∧
        (m.markTaskIncomplete arg).1.tasks = pre ++ { t with completed := false } :: post) := by
  constructor
  · intro h
    rcases hf : m.findTaskById arg with _ | t
    · simp [TodoListManager.markTaskComplete, hf] at h
    · have hfind := findTaskById_eq_find? m arg t hf
      obtain ⟨hpt, pre, post, hsplit, hpre⟩ := find?_decomp hfind
      have hr : r = { t with completed := true } := by
        simp [TodoListManager.markTaskComplete, hf, Task.markComplete] at h
        exact h.symm
      have htasks : (m.markTaskComplete arg).1.tasks =
          pre ++ { t with completed := true } :: post := by
        simp only [TodoListManager.markTaskComplete, hf]
        rw [hsplit]
        exact modifyFirst_append _ _ pre t post hpre hpt
      refine ⟨by simp [TodoListManager.markTaskComplete, hf], ?_,
        pre, t, post, hsplit, hpt, hpre, hr, htasks⟩
      rw [htasks, hsplit]
      simp
  · intro h
    rcases hf : m.findTaskById arg with _ | t
    · simp [TodoListManager.markTaskIncomplete, hf] at h
    · have hfind := findTaskById_eq_find? m arg t hf
      obtain ⟨hpt, pre, post, hsplit, hpre⟩ := find?_decomp hfind
      have hr : r = { t with completed := false } := by
        simp [TodoListManager.markTaskIncomplete, hf, Task.markIncomplete] at h
        exact h.symm
      have htasks : (m.markTaskIncomplete arg).1.tasks =
          pre ++ { t with completed := false } :: post := by
        simp only [TodoListManager.markTaskIncomplete, hf]
        rw [hsplit]
        exact modifyFirst_append _ _ pre t post hpre hpt
      refine ⟨by simp [TodoListManager.markTaskIncomplete, hf], ?_,
        pre, t, post, hsplit, hpt, hpre, hr, htasks⟩
      rw [htasks, hsplit]
      simp

/-- Witness for `mark_frame_spec` at a concrete successful call. -/
theorem mark_frame_spec_witness :
    ((TodoListManager.empty.addTask (some "a") (some "2024-01-01")).1.markTaskComplete
        (FindArg.num ((1 : Int) : ℚ))).1.nextId =
      (TodoListManager.empty.addTask (some "a") (some "2024-01-01")).1.nextId ∧
    ((TodoListManager.empty.addTask (some "a") (some "2024-01-01")).1.markTaskComplete
        (FindArg.num ((1 : Int) : ℚ))).1.tasks.length =
      (TodoListManager.empty.addTask (some "a") (some "2024-01-01")).1.tasks.length ∧
    ∃ pre t post,
      (TodoListManager.empty.addTask (some "a") (some "2024-01-01")).1.tasks =
        pre ++ t :: post ∧
      (FindArg.num ((1 : Int) : ℚ)).eqId t.id = true ∧
      (∀ u ∈ pre, (FindArg.num ((1 : Int) : ℚ)).eqId u.id = false) ∧
      ({ id := 1, description := "a", dueDate := "2024-01-01", completed := true } : Task) =
        { t with completed := true } ∧
      ((TodoListManager.empty.addTask (some "a") (some "2024-01-01")).1.markTaskComplete
          (FindArg.num ((1 : Int) : ℚ))).1.tasks =
        pre ++ { t with completed := true } :: post :=
  (mark_frame_spec (TodoListManager.empty.addTask (some "a") (some "2024-01-01")).1
      (FindArg.num ((1 : Int) : ℚ))
      { id := 1, description := "a", dueDate := "2024-01-01", completed := true }).1
    (by decide)

end Todo

namespace Todo

/-! ### Invariant infrastructure for C8 / C9 -/

theorem construct_ok {id : Int} {d dd : Option String} {c : Bool} {t : Task}
    (h : Task.construct id d dd c = .ok t) : TaskInv t ∧ t.id = id := by
  cases d with
  | none => simp [Task.construct] at h
  | some d0 =>
    by_cases hs : jsTrim d0 = ""
    · simp [Task.construct, hs] at h
    · cases dd with
      | none => simp [Task.construct, hs] at h
      | some dd0 =>
        by_cases hm : matchesDatePattern dd0
        · have heq : t = { id := id, description := jsTrim d0, dueDate := dd0, completed := c } := by
            have := h
            simp [Task.construct, hs, hm] at this
            exact this.symm
          subst heq
          exact ⟨⟨hs, jsTrim_idem d0, hm⟩, rfl⟩
        · simp [Task.construct, hs, hm] at h

theorem updateDescription_ok {t : Task} {s : Option String} {t1 : Task}
    (h : t.updateDescription s = .ok t1) (hinv : TaskInv t) :
    TaskInv t1 ∧ t1.id = t.id ∧ t1.dueDate = t.dueDate ∧ t1.completed = t.completed := by
  cases s with
  | none => simp [Task.updateDescription] at h
  | some s0 =>
    by_cases hs : jsTrim s0 = ""
    · simp [Task.updateDescription, hs] at h
    · have heq : t1 = { t with description := jsTrim s0 } := by
        have := h
        simp [Task.updateDescription, hs] at this
        exact this.symm
      subst heq
      exact ⟨⟨hs, jsTrim_idem s0, hinv.2.2⟩, rfl, rfl, rfl⟩

theorem updateDueDate_ok {t : Task} {s : Option String} {t1 : Task}
    (h : t.updateDueDate s = .ok t1) (hinv : TaskInv t) :
    TaskInv t1 ∧ t1.id = t.id ∧ t1.description = t.description ∧
      t1.completed = t.completed := by
  cases s with
  | none => simp [Task.updateDueDate] at h
  | some s0 =>
    by_cases hm : matchesDatePattern s0
    · have heq : t1 = { t with dueDate := s0 } := by
        have := h
        simp [Task.updateDueDate, hm] at this
        exact this.symm
      subst heq
      exact ⟨⟨hinv.1, hinv.2.1, hm⟩, rfl, rfl, rfl⟩
    · simp [Task.updateDueDate, hm] at h

theorem applyUpdates_eq1 (u : Updates) (t : Task)
    (h1 : u.description = none) (h2 : u.dueDate = none) :
    applyUpdates u t = .ok t := by
  unfold applyUpdates; rw [h1, h2]

theorem applyUpdates_eq2 (u : Updates) (t : Task) (dv2 : Option String) (e2 : String)
    (h1 : u.description = none) (h2 : u.dueDate = some dv2)
    (h3 : t.updateDueDate dv2 = .error e2) :
    applyUpdates u t = .error (e2, t) := by
  unfold applyUpdates; rw [h1, h2]
  show (match t.updateDueDate dv2 with
        | Except.error e => Except.error (e, t)
        | Except.ok t2 => Except.ok t2) = Except.error (e2, t)
  rw [h3]

theorem applyUpdates_eq3 (u : Updates) (t : Task) (dv2 : Option String) (t2 : Task)
    (h1 : u.description = none) (h2 : u.dueDate = some dv2)
    (h3 : t.updateDueDate dv2 = .ok t2) :
    applyUpdates u t = .ok t2 := by
  unfold applyUpdates; rw [h1, h2]
  show (match t.updateDueDate dv2 with
        | Except.error e => Except.error (e, t)
        | Except.ok t2 => Except.ok t2) = Except.ok t2
  rw [h3]

theorem applyUpdates_eq4 (u : Updates) (t : Task) (dv : Option String) (e2 : String)
    (h1 : u.description = some dv) (h2 : t.updateDescription dv = .error e2) :
    applyUpdates u t = .error (e2, t) := by
  unfold applyUpdates; rw [h1]
  show (match (match t.updateDescription dv with
               | Except.error e => Except.error (e, t)
               | Except.ok t1 => Except.ok t1 : Except (String × Task) Task) with
        | Except.error r => Except.error r
        | Except.ok t1 =>
          match u.dueDate with
          | none => Except.ok t1
          | some dd =>
            match t1.updateDueDate dd with
            | Except.error e => Except.error (e, t1)
            | Except.ok t2 => Except.ok t2) = Except.error (e2, t)
  rw [h2]

theorem applyUpdates_eq5 (u : Updates) (t : Task) (dv : Option String) (t1 : Task)
    (h1 : u.description = some dv) (h2 : t.updateDescription dv = .ok t1)
    (h3 : u.dueDate = none) :
    applyUpdates u t = .ok t1 := by
  unfold applyUpdates; rw [h1]
  show (match (match t.updateDescription dv with
               | Except.error e => Except.error (e, t)
               | Except.ok t1 => Except.ok t1 : Except (String × Task) Task) with
        | Except.error r => Except.error r
        | Except.ok t1 =>
          match u.dueDate with
          | none => Except.ok t1
          | some dd =>
            match t1.updateDueDate dd with
            | Except.error e => Except.error (e, t1)
            | Except.ok t2 => Except.ok t2) = Except.ok t1
  rw [h2, h3]

theorem applyUpdates_eq6 (u : Updates) (t : Task) (dv dv2 : Option String)
    (t1 : Task) (e2 : String)
    (h1 : u.description = some dv) (h2 : t.updateDescription dv = .ok t1)
    (h3 : u.dueDate = some dv2) (h4 : t1.updateDueDate dv2 = .error e2) :
    applyUpdates u t = .error (e2, t1) := by
  unfold applyUpdates; rw [h1]
  show (match (match t.updateDescription dv with
               | Except.error e => Except.error (e, t)
               | Except.ok t1 => Except.ok t1 : Except (String × Task) Task) with
        | Except.error r => Except.error r
        | Except.ok t1 =>
          match u.dueDate with
          | none => Except.ok t1
          | some dd =>
            match t1.updateDueDate dd with
            | Except.error e => Except.error (e, t1)
            | Except.ok t2 => Except.ok t2) = Except.error (e2, t1)
  rw [h2, h3]
  show (match t1.updateDueDate dv2 with
        | Except.error e => Except.error (e, t1)
        | Except.ok t2 => Except.ok t2) = Except.error (e2, t1)
  rw [h4]

theorem applyUpdates_eq7 (u : Updates) (t : Task) (dv dv2 : Option String)
    (t1 t2 : Task)
    (h1 : u.description = some dv) (h2 : t.updateDescription dv = .ok t1)
    (h3 : u.dueDate = some dv2) (h4 : t1.updateDueDate dv2 = .ok t2) :
    applyUpdates u t = .ok t2 := by
  unfold applyUpdates; rw [h1]
  show (match (match t.updateDescription dv with
               | Except.error e => Except.error (e, t)
               | Except.ok t1 => Except.ok t1 : Except (String × Task) Task) with
        | Except.error r => Except.error r
        | Except.ok t1 =>
          match u.dueDate with
          | none => Except.ok t1
          | some dd =>
            match t1.updateDueDate dd with
            | Except.error e => Except.error (e, t1)
            | Except.ok t2 => Except.ok t2) = Except.ok t2
  rw [h2, h3]
  show (match t1.updateDueDate dv2 with
        | Except.error e => Except.error (e, t1)
        | Except.ok t2 => Except.ok t2) = Except.ok t2
  rw [h4]

theorem applyUpdates_facts (u : Updates) (t : Task) (hinv : TaskInv t) :
    (∀ t2, applyUpdates u t = .ok t2 → TaskInv t2 ∧ t2.id = t.id) ∧
    (∀ e t1, applyUpdates u t = .error (e, t1) → TaskInv t1 ∧ t1.id = t.id) := by
  rcases hud : u.description with _ | dv
  · rcases hudd : u.dueDate with _ | dv2
    · rw [applyUpdates_eq1 u t hud hudd]
      exact ⟨fun t2 h => by rw [← (Except.ok.injEq _ _).mp h]; exact ⟨hinv, rfl⟩,
        fun e t1 h => by simp at h⟩
    · rcases hupd : t.updateDueDate dv2 with e2 | t2'
      · rw [applyUpdates_eq2 u t dv2 e2 hud hudd hupd]
        exact ⟨fun t2 h => by simp at h,
          fun e t1 h => by
            rw [← ((Prod.mk.injEq _ _ _ _).mp ((Except.error.injEq _ _).mp h)).2]
            exact ⟨hinv, rfl⟩⟩
      · have hfacts := updateDueDate_ok hupd hinv
        rw [applyUpdates_eq3 u t dv2 t2' hud hudd hupd]
        exact ⟨fun t2 h => by
            rw [← (Except.ok.injEq _ _).mp h]; exact ⟨hfacts.1, hfacts.2.1⟩,
          fun e t1 h => by simp at h⟩
  · rcases hup : t.updateDescription dv with e2 | t1'
    · rw [applyUpdates_eq4 u t dv e2 hud hup]
      exact ⟨fun t2 h => by simp at h,
        fun e t1 h => by
          rw [← ((Prod.mk.injEq _ _ _ _).mp ((Except.error.injEq _ _).mp h)).2]
          exact ⟨hinv, rfl⟩⟩
    · have hdesc := updateDescription_ok hup hinv
      rcases hudd : u.dueDate with _ | dv2
      · rw [applyUpdates_eq5 u t dv t1' hud hup hudd]
        exact ⟨fun t2 h => by
            rw [← (Except.ok.injEq _ _).mp h]; exact ⟨hdesc.1, hdesc.2.1⟩,
          fun e t1 h => by simp at h⟩
      · rcases hupd : t1'.updateDueDate dv2 with e2 | t2'
        · rw [applyUpdates_eq6 u t dv dv2 t1' e2 hud hup hudd hupd]
          exact ⟨fun t2 h => by simp at h,
            fun e t1 h => by
              rw [← ((Prod.mk.injEq _ _ _ _).mp ((Except.error.injEq _ _).mp h)).2]
              exact ⟨hdesc.1, hdesc.2.1⟩⟩
        · have hdd := updateDueDate_ok hupd hdesc.1
          rw [applyUpdates_eq7 u t dv dv2 t1' t2' hud hup hudd hupd]
          exact ⟨fun t2 h => by
              rw [← (Except.ok.injEq _ _).mp h]
              exact ⟨hdd.1, hdd.2.1.trans hdesc.2.1⟩,
            fun e t1 h => by simp at h⟩

theorem idsOf_replace (m : TodoListManager) (pre post : List Task) (t t' : Task)
    (hsplit : m.tasks = pre ++ t :: post) (hid : t'.id = t.id) :
    idsOf { m with tasks := pre ++ t' :: post } = idsOf m := by
  simp [idsOf, hsplit, hid]

theorem inv_replace (m : TodoListManager) (pre post : List Task) (t t' : Task)
    (hsplit : m.tasks = pre ++ t :: post) (hid : t'.id = t.id) (ht' : TaskInv t')
    (hInv : Inv m) : Inv { m with tasks := pre ++ t' :: post } := by
  obtain ⟨hnd, hlt, htask⟩ := hInv
  have hids := idsOf_replace m pre post t t' hsplit hid
  refine ⟨by rw [hids]; exact hnd, ?_, ?_⟩
  · intro i hi
    rw [hids] at hi
    exact hlt i hi
  · intro y hy
    simp only [List.mem_append, List.mem_cons] at hy
    rcases hy with hy | rfl | hy
    · exact htask y (by rw [hsplit]; simp [hy])
    · exact ht'
    · exact htask y (by rw [hsplit]; simp [hy])

theorem findIdx?_decomp (p : Task → Bool) :
    ∀ (l : List Task) (i : Nat), l.findIdx? p = some i →
      ∃ pre t post, l = pre ++ t :: post ∧ pre.length = i ∧ p t = true ∧
        (∀ u ∈ pre, p u = false) ∧ l.eraseIdx i = pre ++ post := by
  intro l
  induction l with
  | nil => intro i h; simp [List.findIdx?] at h
  | cons x xs ih =>
    intro i h
    rw [List.findIdx?_cons] at h
    by_cases hx : p x
    · rw [if_pos hx] at h
      simp only [Option.some.injEq] at h
      exact ⟨[], x, xs, rfl, h, hx, by simp, by rw [← h]; rfl⟩
    · rw [if_neg hx, List.findIdx?_succ] at h
      rcases hj : xs.findIdx? p with _ | j
      · rw [hj] at h; simp at h
      · rw [hj] at h
        simp only [Option.map_some', Option.some.injEq] at h
        obtain ⟨pre, t, post, hsp, hlen, hpt, hpre, her⟩ := ih j hj
        refine ⟨x :: pre, t, post, by simp [hsp], by simp [hlen, ← h], hpt, ?_, ?_⟩
        · intro u hu
          rcases List.mem_cons.mp hu with rfl | hu2
          · exact Bool.eq_false_iff.mpr hx
          · exact hpre u hu2
        · rw [← h, List.eraseIdx_cons_succ, her]
          rfl

end Todo

namespace Todo

/-! ### Step preservation and reachability (C8 / C9) -/

theorem Inv_empty : Inv TodoListManager.empty :=
  ⟨List.nodup_nil, by intro i hi; simp [idsOf, TodoListManager.empty] at hi,
   by intro t ht; simp [TodoListManager.empty] at ht⟩

theorem stepOp_facts (m : TodoListManager) (op : Op) (hInv : Inv m) :
    Inv (stepOp m op) ∧ m.nextId ≤ (stepOp m op).nextId ∧
    (∀ n : Int, n ∉ idsOf m → n < m.nextId → n ∉ idsOf (stepOp m op)) := by
  obtain ⟨hnd, hlt, htask⟩ := hInv
  cases op with
  | add d dd =>
    rcases hc : Task.construct m.nextId d dd with e | t
    · have hstep : stepOp m (.add d dd) = m := by
        simp [stepOp, TodoListManager.addTask, hc]
      rw [hstep]
      exact ⟨⟨hnd, hlt, htask⟩, le_refl _, fun n hn _ => hn⟩
    · have hstep : stepOp m (.add d dd) =
          { tasks := m.tasks ++ [t], nextId := m.nextId + 1 } := by
        simp [stepOp, TodoListManager.addTask, hc]
      obtain ⟨htinv, htid⟩ := construct_ok hc
      have hids : idsOf { tasks := m.tasks ++ [t], nextId := m.nextId + 1 } =
          idsOf m ++ [t.id] := by simp [idsOf]
      rw [hstep]
      refine ⟨⟨?_, ?_, ?_⟩, ?_, ?_⟩
      · rw [hids, List.nodup_append]
        refine ⟨hnd, by simp, ?_⟩
        intro x hx hx2
        simp only [List.mem_singleton] at hx2
        have hxlt := hlt x hx
        rw [hx2, htid] at hxlt
        exact absurd hxlt (lt_irrefl _)
      · intro i hi
        rw [hids] at hi
        rcases List.mem_append.mp hi with h1 | h1
        · have := hlt i h1
          show i < m.nextId + 1
          omega
        · simp only [List.mem_singleton] at h1
          rw [h1, htid]
          show m.nextId < m.nextId + 1
          omega
      · intro y hy
        rcases List.mem_append.mp hy with h1 | h1
        · exact htask y h1
        · simp only [List.mem_singleton] at h1
          rw [h1]; exact htinv
      · show m.nextId ≤ m.nextId + 1
        omega
      · intro n hn hlt2
        rw [hids]
        intro hmem
        rcases List.mem_append.mp hmem with h1 | h1
        · exact hn h1
        · simp only [List.mem_singleton] at h1
          rw [htid] at h1
          omega
  | complete a =>
    rcases hf : m.findTaskById a with _ | t
    · have hstep : stepOp m (.complete a) = m := by
        simp [stepOp, TodoListManager.markTaskComplete, hf]
      rw [hstep]
      exact ⟨⟨hnd, hlt, htask⟩, le_refl _, fun n hn _ => hn⟩
    · have hfind := findTaskById_eq_find? m a t hf
      obtain ⟨hpt, pre, post, hsplit, hpre⟩ := find?_decomp hfind
      have hstep : stepOp m (.complete a) =
          { m with tasks := pre ++ { t with completed := true } :: post } := by
        simp only [stepOp, TodoListManager.markTaskComplete, hf]
        rw [hsplit, modifyFirst_append _ _ pre t post hpre hpt]
        rfl
      have htmem : t ∈ m.tasks := by rw [hsplit]; simp
      have ht := htask t htmem
      have ht' : TaskInv { t with completed := true } := ⟨ht.1, ht.2.1, ht.2.2⟩
      rw [hstep]
      refine ⟨inv_replace m pre post t { t with completed := true } hsplit rfl ht'
        ⟨hnd, hlt, htask⟩, le_refl _, ?_⟩
      intro n hn _
      rw [idsOf_replace m pre post t { t with completed := true } hsplit rfl]
      exact hn
  | incomplete a =>
    rcases hf : m.findTaskById a with _ | t
    · have hstep : stepOp m (.incomplete a) = m := by
        simp [stepOp, TodoListManager.markTaskIncomplete, hf]
      rw [hstep]
      exact ⟨⟨hnd, hlt, htask⟩, le_refl _, fun n hn _ => hn⟩
    · have hfind := findTaskById_eq_find? m a t hf
      obtain ⟨hpt, pre, post, hsplit, hpre⟩ := find?_decomp hfind
      have hstep : stepOp m (.incomplete a) =
          { m with tasks := pre ++ { t with completed := false } :: post } := by
        simp only [stepOp, TodoListManager.markTaskIncomplete, hf]
        rw [hsplit, modifyFirst_append _ _ pre t post hpre hpt]
        rfl
      have htmem : t ∈ m.tasks := by rw [hsplit]; simp
      have ht := htask t htmem
      have ht' : TaskInv { t with completed := false } := ⟨ht.1, ht.2.1, ht.2.2⟩
      rw [hstep]
      refine ⟨inv_replace m pre post t { t with completed := false } hsplit rfl ht'
        ⟨hnd, hlt, htask⟩, le_refl _, ?_⟩
      intro n hn _
      rw [idsOf_replace m pre post t { t with completed := false } hsplit rfl]
      exact hn
  | del a =>
    rcases hi : m.tasks.findIdx? (fun t => a.eqId t.id) with _ | i
    · have hstep : stepOp m (.del a) = m := by
        simp [stepOp, TodoListManager.deleteTask, hi]
      rw [hstep]
      exact ⟨⟨hnd, hlt, htask⟩, le_refl _, fun n hn _ => hn⟩
    · have hstep : stepOp m (.del a) = { m with tasks := m.tasks.eraseIdx i } := by
        simp [stepOp, TodoListManager.deleteTask, hi]
      have hsub : (m.tasks.eraseIdx i).Sublist m.tasks := List.eraseIdx_sublist _ _
      have hsubIds : ((m.tasks.eraseIdx i).map Task.id).Sublist (m.tasks.map Task.id) :=
        hsub.map _
      rw [hstep]
      refine ⟨⟨hsubIds.nodup hnd, ?_, ?_⟩, le_refl _, ?_⟩
      · intro j hj
        exact hlt j (hsubIds.subset hj)
      · intro y hy
        exact htask y (hsub.subset hy)
      · intro n hn _ hmem
        exact hn (hsubIds.subset hmem)
  | update a u =>
    rcases hf : m.findTaskById a with _ | t
    · have hstep : stepOp m (.update a u) = m := by
        simp [stepOp, TodoListManager.updateTask, hf]
      rw [hstep]
      exact ⟨⟨hnd, hlt, htask⟩, le_refl _, fun n hn _ => hn⟩
    · have hfind := findTaskById_eq_find? m a t hf
      obtain ⟨hpt, pre, post, hsplit, hpre⟩ := find?_decomp hfind
      have htmem : t ∈ m.tasks := by rw [hsplit]; simp
      have ht := htask t htmem
      have hfacts := applyUpdates_facts u t ht
      rcases happ : applyUpdates u t with ⟨e1, t1⟩ | t2
      · have h1 := hfacts.2 e1 t1 happ
        have hstep : stepOp m (.update a u) = { m with tasks := pre ++ t1 :: post } := by
          simp only [stepOp, TodoListManager.updateTask, hf, happ]
          rw [hsplit, modifyFirst_append _ _ pre t post hpre hpt]
        rw [hstep]
        refine ⟨inv_replace m pre post t t1 hsplit h1.2 h1.1 ⟨hnd, hlt, htask⟩,
          le_refl _, ?_⟩
        intro n hn _
        rw [idsOf_replace m pre post t t1 hsplit h1.2]
        exact hn
      · have h1 := hfacts.1 t2 happ
        have hstep : stepOp m (.update a u) = { m with tasks := pre ++ t2 :: post } := by
          simp only [stepOp, TodoListManager.updateTask, hf, happ]
          rw [hsplit, modifyFirst_append _ _ pre t post hpre hpt]
        rw [hstep]
        refine ⟨inv_replace m pre post t t2 hsplit h1.2 h1.1 ⟨hnd, hlt, htask⟩,
          le_refl _, ?_⟩
        intro n hn _
        rw [idsOf_replace m pre post t t2 hsplit h1.2]
        exact hn
  | list f =>
    exact ⟨⟨hnd, hlt, htask⟩, le_refl _, fun n hn _ => hn⟩
  | find a2 =>
    exact ⟨⟨hnd, hlt, htask⟩, le_refl _, fun n hn _ => hn⟩

theorem runOps_facts (ops : List Op) :
    ∀ m : TodoListManager, Inv m →
      Inv (runOps ops m) ∧ m.nextId ≤ (runOps ops m).nextId ∧
      (∀ n : Int, n ∉ idsOf m → n < m.nextId →
        n ∉ idsOf (runOps ops m) ∧ n < (runOps ops m).nextId) := by
  induction ops with
  | nil =>
    intro m hInv
    exact ⟨hInv, le_refl _, fun n hn hl => ⟨hn, hl⟩⟩
  | cons op ops ih =>
    intro m hInv
    have hs := stepOp_facts m op hInv
    have ih' := ih (stepOp m op) hs.1
    refine ⟨ih'.1, le_trans hs.2.1 ih'.2.1, ?_⟩
    intro n hn hl
    have hn' := hs.2.2 n hn hl
    have hl' : n < (stepOp m op).nextId := lt_of_lt_of_le hl hs.2.1
    exact ih'.2.2 n hn' hl'

end Todo

namespace Todo

/-! ### C8: identifier allocation invariants -/

/-- C8: in every reachable state the stored ids are pairwise distinct and
strictly below the counter; the counter starts at 1, grows by exactly 1 on
each successful `addTask` and is untouched by every other operation; and
once `deleteTask` succeeds for an integer id, `findTaskById` on that id
yields not-found after any further sequence of operations — the id is never
reassigned. -/
theorem id_allocation_spec :
    TodoListManager.empty.nextId = 1 ∧
    (∀ ops : List Op, (idsOf (runOps ops TodoListManager.empty)).Nodup ∧
      ∀ i ∈ idsOf (runOps ops TodoListManager.empty),
        i < (runOps ops TodoListManager.empty).nextId) ∧
    (∀ (m : TodoListManager) (d dd : Option String) (t : Task),
      (m.addTask d dd).2 = .ok t → (m.addTask d dd).1.nextId = m.nextId + 1) ∧
    (∀ (m : TodoListManager) (d dd : Option String) (e : String),
      (m.addTask d dd).2 = .error e → (m.addTask d dd).1.nextId = m.nextId) ∧
    (∀ (m : TodoListManager) (a : FindArg),
      (m.markTaskComplete a).1.nextId = m.nextId) ∧
    (∀ (m : TodoListManager) (a : FindArg),
      (m.markTaskIncomplete a).1.nextId = m.nextId) ∧
    (∀ (m : TodoListManager) (a : FindArg),
      (m.deleteTask a).1.nextId = m.nextId) ∧
    (∀ (m : TodoListManager) (a : FindArg) (u : Updates),
      (m.updateTask a u).1.nextId = m.nextId) ∧
    (∀ (ops : List Op) (n : Int) (ops2 : List Op),
      ((runOps ops TodoListManager.empty).deleteTask
          (FindArg.num ((n : Int) : ℚ))).2 = .ok true →
      n ∉ idsOf (runOps ops2
          ((runOps ops TodoListManager.empty).deleteTask
            (FindArg.num ((n : Int) : ℚ))).1) ∧
      (runOps ops2
          ((runOps ops TodoListManager.empty).deleteTask
            (FindArg.num ((n : Int) : ℚ))).1).findTaskById
          (FindArg.num ((n : Int) : ℚ)) = none) := by
  refine ⟨rfl, ?_, ?_, ?_, ?_, ?_, ?_, ?_, ?_⟩
  · intro ops
    have h := (runOps_facts ops TodoListManager.empty Inv_empty).1
    exact ⟨h.1, h.2.1⟩
  · intro m d dd t h
    rcases hc : Task.construct m.nextId d dd with e | t2
    · simp [TodoListManager.addTask, hc] at h
    · simp [TodoListManager.addTask, hc]
  · intro m d dd e h
    rcases hc : Task.construct m.nextId d dd with e2 | t2
    · simp [TodoListManager.addTask, hc]
    · simp [TodoListManager.addTask, hc] at h
  · intro m a
    rcases hf : m.findTaskById a with _ | t <;>
      simp [TodoListManager.markTaskComplete, hf]
  · intro m a
    rcases hf : m.findTaskById a with _ | t <;>
      simp [TodoListManager.markTaskIncomplete, hf]
  · intro m a
    rcases hi : m.tasks.findIdx? (fun t => a.eqId t.id) with _ | i <;>
      simp [TodoListManager.deleteTask, hi]
  · intro m a u
    rcases hf : m.findTaskById a with _ | t
    · simp [TodoListManager.updateTask, hf]
    · rcases happ : applyUpdates u t with ⟨e1, t1⟩ | t2 <;>
        simp [TodoListManager.updateTask, hf, happ]
  · intro ops n ops2 hdel
    have hInv1 : Inv (runOps ops TodoListManager.empty) :=
      (runOps_facts ops TodoListManager.empty Inv_empty).1
    obtain ⟨hnd, hlt, htask⟩ := hInv1
    rcases hi : (runOps ops TodoListManager.empty).tasks.findIdx?
        (fun t => (FindArg.num ((n : Int) : ℚ)).eqId t.id) with _ | i
    · simp [TodoListManager.deleteTask, hi] at hdel
    · obtain ⟨pre, t, post, hsplit, hlen, hpt, hpre, her⟩ :=
        findIdx?_decomp _ (runOps ops TodoListManager.empty).tasks i hi
      have hid : t.id = n := by
        simp only [FindArg.eqId, decide_eq_true_iff] at hpt
        exact_mod_cast hpt.symm
      have hm2 : ((runOps ops TodoListManager.empty).deleteTask
            (FindArg.num ((n : Int) : ℚ))).1 =
          { runOps ops TodoListManager.empty with tasks := pre ++ post } := by
        simp [TodoListManager.deleteTask, hi, her]
      have hnot : n ∉ idsOf ((runOps ops TodoListManager.empty).deleteTask
          (FindArg.num ((n : Int) : ℚ))).1 := by
        rw [hm2]
        intro hmem
        have hmem2 : n ∈ pre.map Task.id ∨ n ∈ post.map Task.id := by
          simpa [idsOf] using hmem
        rcases hmem2 with h1 | h1
        · obtain ⟨u2, hu2, hu2id⟩ := List.mem_map.mp h1
          have := hpre u2 hu2
          simp only [FindArg.eqId, decide_eq_false_iff_not] at this
          exact this (by exact_mod_cast congrArg (fun z : Int => (z : ℚ)) hu2id.symm)
        · have hndsplit : ((pre ++ t :: post).map Task.id).Nodup := by
            rw [← hsplit]; exact hnd
          rw [List.map_append, List.map_cons, List.nodup_append] at hndsplit
          have := (List.nodup_cons.mp hndsplit.2.1).1
          rw [hid] at this
          exact this h1
      have hmem1 : n ∈ idsOf (runOps ops TodoListManager.empty) := by
        rw [← hid]
        exact List.mem_map_of_mem _ (by rw [hsplit]; simp)
      have hlt1 : n < ((runOps ops TodoListManager.empty).deleteTask
          (FindArg.num ((n : Int) : ℚ))).1.nextId := by
        rw [hm2]
        exact hlt n hmem1
      have hInv2 : Inv ((runOps ops TodoListManager.empty).deleteTask
          (FindArg.num ((n : Int) : ℚ))).1 :=
        (stepOp_facts (runOps ops TodoListManager.empty)
          (.del (FindArg.num ((n : Int) : ℚ))) ⟨hnd, hlt, htask⟩).1
      have hfinal := (runOps_facts ops2 _ hInv2).2.2 n hnot hlt1
      refine ⟨hfinal.1, ?_⟩
      simp only [TodoListManager.findTaskById]
      rw [List.find?_eq_none]
      intro t2 ht2
      simp only [FindArg.eqId, decide_eq_true_iff]
      intro hq
      have ht2id : t2.id = n := by exact_mod_cast hq.symm
      have hmm := List.mem_map_of_mem Task.id ht2
      rw [ht2id] at hmm
      exact hfinal.1 hmm

/-- Witness for `id_allocation_spec`: a successful add increments the
counter, and after deleting task 1 it is never found again, even after a
further add. -/
theorem id_allocation_spec_witness :
    ((TodoListManager.empty.addTask (some "a") (some "2024-01-01")).1.nextId =
      TodoListManager.empty.nextId + 1) ∧
    ((1 : Int) ∉ idsOf (runOps [Op.add (some "b") (some "2024-02-02")]
        ((runOps [Op.add (some "a") (some "2024-01-01")]
            TodoListManager.empty).deleteTask
          (FindArg.num (((1 : Int) : Int) : ℚ))).1) ∧
      (runOps [Op.add (some "b") (some "2024-02-02")]
          ((runOps [Op.add (some "a") (some "2024-01-01")]
              TodoListManager.empty).deleteTask
            (FindArg.num (((1 : Int) : Int) : ℚ))).1).findTaskById
          (FindArg.num (((1 : Int) : Int) : ℚ)) = none) :=
  ⟨id_allocation_spec.2.2.1 TodoListManager.empty (some "a") (some "2024-01-01")
      { id := 1, description := "a", dueDate := "2024-01-01", completed := false }
      (by decide),
   id_allocation_spec.2.2.2.2.2.2.2.2
      [Op.add (some "a") (some "2024-01-01")] 1
      [Op.add (some "b") (some "2024-02-02")] (by decide)⟩

/-! ### C9: task wellformedness invariant -/

/-- C9: every task produced by construction satisfies the wellformedness
invariant (trimmed non-empty description, pattern-matching due date); every
task operation preserves it; and every task stored in any reachable manager
state satisfies it. -/
theorem task_wellformed_spec :
    (∀ (id : Int) (d dd : Option String) (c : Bool) (t : Task),
      Task.construct id d dd c = .ok t → TaskInv t) ∧
    (∀ (t : Task) (s : Option String) (t1 : Task),
      TaskInv t → t.updateDescription s = .ok t1 → TaskInv t1) ∧
    (∀ (t : Task) (s : Option String) (t1 : Task),
      TaskInv t → t.updateDueDate s = .ok t1 → TaskInv t1) ∧
    (∀ t : Task, TaskInv t → TaskInv t.markComplete ∧ TaskInv t.markIncomplete) ∧
    (∀ (ops : List Op) (t : Task),
      t ∈ (runOps ops TodoListManager.empty).tasks → TaskInv t) := by
  refine ⟨?_, ?_, ?_, ?_, ?_⟩
  · intro id d dd c t h
    exact (construct_ok h).1
  · intro t s t1 hinv h
    exact (updateDescription_ok h hinv).1
  · intro t s t1 hinv h
    exact (updateDueDate_ok h hinv).1
  · intro t hinv
    exact ⟨⟨hinv.1, hinv.2.1, hinv.2.2⟩, ⟨hinv.1, hinv.2.1, hinv.2.2⟩⟩
  · intro ops t ht
    exact (runOps_facts ops TodoListManager.empty Inv_empty).1.2.2 t ht

/-- Witness for `task_wellformed_spec` at a concrete construction and a
concrete reachable state. -/
theorem task_wellformed_spec_witness :
    TaskInv { id := 1, description := "a", dueDate := "2024-01-01", completed := false } ∧
    TaskInv { id := 1, description := "x", dueDate := "2024-03-04", completed := false } :=
  ⟨task_wellformed_spec.1 1 (some " a ") (some "2024-01-01") false
      { id := 1, description := "a", dueDate := "2024-01-01", completed := false }
      (by decide),
   task_wellformed_spec.2.2.2.2 [Op.add (some "x") (some "2024-03-04")]
      { id := 1, description := "x", dueDate := "2024-03-04", completed := false }
      (by decide)⟩

end Todo
